import Mathlib

/-!
Shallow embedding of the workspace / git / npm MCP server core:
the workspace path resolver (`workspaceManager.ts`), patch path extraction
and the `apply_patch` tool handler (`fileTools.ts`), the commit-and-push
orchestrator (`gitCommit.ts`), the git client's compound
create-and-push-branch operation (`gitClient.ts`), and the command output
formatter (modelled from the specification, since `commandOutput.ts` is not
among the provided sources).

Strings are embedded as Lean `String`; JavaScript `startsWith`, substring
search, whitespace splitting and case folding are modelled explicitly on
character lists.  Subprocess execution is embedded by passing the
`CommandResult` each step would produce as explicit data and logging the
calls/effects the code performs, so that "step X is never invoked" claims
become statements about the logged trace.
-/

/-- Result of one subprocess invocation (`CommandResult` in `commandRunner.ts`):
captured stdout, stderr and the exit code. -/
structure CommandResult where
  stdout : String
  stderr : String
  exitCode : Int
deriving Repr, DecidableEq

/-- JavaScript `s.startsWith(pre)`, modelled on the character lists. -/
def strStartsWith (s pre : String) : Bool :=
  pre.toList.isPrefixOf s.toList

/-- Substring search on character lists: does `pat` occur inside `l`? -/
def listContainsSub (l pat : List Char) : Bool :=
  pat.isPrefixOf l ||
    match l with
    | [] => false
    | _ :: t => listContainsSub t pat

/-- JavaScript substring containment `s.includes(pat)`. -/
def strContainsSub (s pat : String) : Bool :=
  listContainsSub s.toList pat.toList

/-- The ASCII whitespace characters matched by the JavaScript `\s` class
(restricted to ASCII, which is all the code relies on). -/
def isJsWs (c : Char) : Bool :=
  c = ' ' || c = '\t' || c = '\n' || c = '\r' || c = '\x0b' || c = '\x0c'

/-- JavaScript `s.trim()` over the ASCII whitespace set. -/
def jsTrim (s : String) : String :=
  String.mk (((s.toList.dropWhile isJsWs).reverse.dropWhile isJsWs).reverse)

/-- `line.split(regexWs)[0]` for a whitespace regex: the maximal run of
non-whitespace characters at the front (empty when the string starts with
whitespace or is empty). -/
def firstWsToken (s : String) : String :=
  String.mk (s.toList.takeWhile (fun c => !isJsWs c))

/-- Split a character list on a separator, JavaScript `split` semantics:
every separator occurrence ends a field, and the empty input gives one
empty field. -/
def splitCharsOn (sep : Char) : List Char → List Char → List String
  | [], acc => [String.mk acc.reverse]
  | c :: rest, acc =>
    if c = sep then String.mk acc.reverse :: splitCharsOn sep rest []
    else splitCharsOn sep rest (c :: acc)

/-- Split on `"/"`, as JavaScript `s.split("/")` (used to model the `path`
module on POSIX). -/
def splitSlash (s : String) : List String :=
  splitCharsOn '/' s.toList []

/-- Join strings with a separator (JavaScript `Array.join`). -/
def joinWith (sep : String) : List String → String
  | [] => ""
  | [x] => x
  | x :: rest => x ++ sep ++ joinWith sep rest

/-- One left-to-right pass of POSIX path normalization over already-split
components: empty and `"."` components vanish, `".."` pops (and is dropped
at the root, as `path.resolve` does for absolute paths).  The accumulator
holds the output components in reverse. -/
def normSteps : List String → List String → List String
  | [], acc => acc.reverse
  | c :: rest, acc =>
    if c = "" || c = "." then normSteps rest acc
    else if c = ".." then normSteps rest acc.tail
    else normSteps rest (c :: acc)

/-- Rebuild an absolute path from normalized components. -/
def joinAbs (comps : List String) : String :=
  "/" ++ joinWith "/" comps

/-- Node `path.resolve(base)` for an absolute `base`: pure normalization. -/
def nodeResolve1 (base : String) : String :=
  joinAbs (normSteps (splitSlash base) [])

/-- Node `path.resolve(base, p)` on POSIX, for an absolute `base`: an
absolute `p` is normalized alone, otherwise `p`'s components are appended
to `base`'s and the whole is normalized. -/
def nodeResolve (base p : String) : String :=
  if strStartsWith p "/" then joinAbs (normSteps (splitSlash p) [])
  else joinAbs (normSteps (splitSlash base ++ splitSlash p) [])

/-- `WorkspaceManager.resolvePath` (`workspaceManager.ts`): resolve the name
against the workspace directory and require the result to start with the
resolved workspace directory followed by the path separator; otherwise
throw `"Invalid file name."`. -/
def resolvePath (workspaceDir fileName : String) : Except String String :=
  let resolvedWorkspaceDir := nodeResolve1 workspaceDir
  let resolvedPath := nodeResolve workspaceDir fileName
  if strStartsWith resolvedPath (resolvedWorkspaceDir ++ "/") then
    Except.ok resolvedPath
  else
    Except.error "Invalid file name."

/-- The spec-side notion of lying strictly within a directory: the path is
the directory, then a separator, then a (possibly empty) remainder. -/
def liesStrictlyWithin (root p : String) : Prop :=
  ∃ rest : String, p = root ++ "/" ++ rest

deriving instance DecidableEq for Except

/-- Split a string into lines as the JavaScript `split` on the CR-optional
newline regex does: a split happens at every `"\n"`, and a `"\r"`
immediately before it is consumed with it; a lone `"\r"` (or one at the end
of the string) stays in its line.  The accumulator holds the current line's
characters in reverse. -/
def splitLinesAux : List Char → List Char → List String
  | [], acc => [String.mk acc.reverse]
  | '\n' :: rest, acc =>
    let acc :=
      match acc with
      | '\r' :: t => t
      | other => other
    String.mk acc.reverse :: splitLinesAux rest []
  | c :: rest, acc => splitLinesAux rest (c :: acc)

/-- `patch.split(crOptionalNewline)` from `extractPatchPaths`. -/
def splitPatchLines (patch : String) : List String :=
  splitLinesAux patch.toList []

/-- Strip one leading `"a/"` or `"b/"`, the `replace` with the anchored
two-letter-dir regex in `normalizePatchPath`. -/
def stripAbPrefix (s : String) : String :=
  if strStartsWith s "a/" then String.mk (s.toList.drop 2)
  else if strStartsWith s "b/" then String.mk (s.toList.drop 2)
  else s

/-- `normalizePatchPath` (`fileTools.ts`): trim the raw path; reject it when
empty or `"/dev/null"`; then strip one `a/`/`b/` prefix and reject when the
remainder is empty. -/
def normalizePatchPath (rawPath : String) : Option String :=
  let trimmed := jsTrim rawPath
  if trimmed = "" || trimmed = "/dev/null" then none
  else
    let normalized := stripAbPrefix trimmed
    if normalized = "" then none
    else some normalized

/-- What one line contributes in `extractPatchPaths`: only `"--- "` /
`"+++ "` lines are considered, the first whitespace-delimited token after
the four-character prefix is taken (empty when whitespace follows the
prefix directly, in which case the line is skipped), and
`normalizePatchPath` filters and normalizes it. -/
def patchLineContribution (line : String) : Option String :=
  if strStartsWith line "--- " || strStartsWith line "+++ " then
    let rawPath := firstWsToken (String.mk (line.toList.drop 4))
    if rawPath = "" then none
    else normalizePatchPath rawPath
  else none

/-- Insertion-ordered set accumulation (the `Set` in `extractPatchPaths`):
append a value unless already present. -/
def addUniq (acc : List String) (p : String) : List String :=
  if p ∈ acc then acc else acc ++ [p]

/-- The accumulation loop of `extractPatchPaths` over the split lines. -/
def extractPatchPathsLoop : List String → List String → List String
  | [], acc => acc
  | line :: rest, acc =>
    match patchLineContribution line with
    | some p => extractPatchPathsLoop rest (addUniq acc p)
    | none => extractPatchPathsLoop rest acc

/-- `extractPatchPaths` (`fileTools.ts`): collect the normalized header
paths of a unified diff, first-occurrence order, duplicate-free. -/
def extractPatchPaths (patch : String) : List String :=
  extractPatchPathsLoop (splitPatchLines patch) []

/-- The claim's per-line rule taken literally in the order it states:
take the token, strip the `a/`/`b/` prefix FIRST, and only then drop the
entry when it is empty or equals `"/dev/null"`.  This differs from
`normalizePatchPath`, which tests `"/dev/null"` before stripping. -/
def claimLineContribution (line : String) : Option String :=
  if strStartsWith line "--- " || strStartsWith line "+++ " then
    let rawPath := firstWsToken (String.mk (line.toList.drop 4))
    let stripped := stripAbPrefix (jsTrim rawPath)
    if stripped = "" || stripped = "/dev/null" then none
    else some stripped
  else none

/-- Patch path extraction as the claim words it (strip before the
`"/dev/null"` test), for comparison with `extractPatchPaths`. -/
def claimExtractPatchPaths (patch : String) : List String :=
  (splitPatchLines patch).foldl (fun acc line =>
    match claimLineContribution line with
    | some p => addUniq acc p
    | none => acc) []

/-- First path of the list the resolver rejects, mirroring the `for` loop
of `validatePatchPaths` which returns on the first failure. -/
def findFirstInvalidPath (workspaceDir : String) : List String → Option String
  | [] => none
  | p :: rest =>
    match resolvePath workspaceDir p with
    | Except.ok _ => findFirstInvalidPath workspaceDir rest
    | Except.error _ => some p

/-- The error message `validatePatchPaths` builds for a rejected path:
`getErrorMessage` on the thrown `Error` yields its message,
`"Invalid file name."`. -/
def invalidPatchPathMsg (p : String) : String :=
  "Invalid patch path \"" ++ p ++ "\": Invalid file name."

/-- `validatePatchPaths` (`fileTools.ts`): reject an empty path list, then
reject on the first path the workspace resolver throws on, naming it;
`none` means validation passed. -/
def validatePatchPaths (workspaceDir : String) (paths : List String) : Option String :=
  if paths = [] then some "Patch does not include any file paths."
  else
    match findFirstInvalidPath workspaceDir paths with
    | some p => some (invalidPatchPathMsg p)
    | none => none

/-- `buildPatchArgs` (`fileTools.ts`). -/
def buildPatchArgs (reverse : Bool) (fuzz : Option Nat) : List String :=
  (if reverse then ["--reverse"] else []) ++
    (match fuzz with
     | some f => ["-C", toString f]
     | none => [])

/-- ASCII lowercase of a string (JavaScript `toLowerCase` restricted to the
ASCII range the no-op commit signatures use). -/
def asciiLower (s : String) : String :=
  String.mk (s.toList.map Char.toLower)

/-- `isNoChangesCommit` (`gitCommit.ts`): the case-insensitive
`nothing to commit` / `no changes added to commit` test on the combined
stdout and stderr. -/
def isNoChangesCommit (result : CommandResult) : Bool :=
  let combined := asciiLower (result.stdout ++ "\n" ++ result.stderr)
  strContainsSub combined "nothing to commit" ||
    strContainsSub combined "no changes added to commit"

/-- Modelled from the spec: the output formatter module
(`formatCommandOutput` in `commandOutput.ts`) is not among the provided
sources; this follows §4.2 of the specification.  Truncation of one
stream's line list: when it exceeds `maxLines`, a marker stating how many
leading lines were trimmed, then exactly the last `maxLines` lines. -/
def formatStreamBlock (maxLines : Nat) (lines : List String) : List String :=
  if maxLines < lines.length then
    ("trimmed " ++ toString (lines.length - maxLines) ++ " lines")
      :: lines.drop (lines.length - maxLines)
  else lines

/-- Modelled from the spec: one stream of `formatCommandOutput` in the
missing `commandOutput.ts` — normalize CRLF line endings, trim trailing
whitespace, omit an empty stream entirely, truncate to a bounded tail, and
label the block. -/
def formatStream (label : String) (maxLines : Nat) (raw : String) : Option String :=
  let normalized := String.mk ((raw.toList.reverse.dropWhile isJsWs).reverse)
  if normalized = "" then none
  else
    let lines := splitPatchLines normalized
    some (label ++ "\n" ++ joinWith "\n" (formatStreamBlock maxLines lines))

/-- Modelled from the spec: `formatCommandOutput` of the missing
`commandOutput.ts` — the labeled stdout and stderr blocks joined with a
blank-line separator; empty when both streams are empty. -/
def formatCommandOutput (result : CommandResult) (maxLines : Nat) : String :=
  let blocks := [formatStream "stdout:" maxLines result.stdout,
                 formatStream "stderr:" maxLines result.stderr]
  joinWith "\n\n" (blocks.filterMap id)

/-- Modelled from the spec: `formatCommandFailure` of the missing
`commandOutput.ts` — the exit-code sentence, followed by the formatted
output when any exists. -/
def formatCommandFailure (result : CommandResult) (maxLines : Nat) : String :=
  let out := formatCommandOutput result maxLines
  let head := "Command failed with exit code " ++ toString result.exitCode ++ "."
  if out = "" then head else head ++ "\n\n" ++ out

/-- `formatOutputs` (`gitCommit.ts`): format each step result and drop the
empty strings (`filter(Boolean)`). -/
def formatOutputs (results : List CommandResult) : List String :=
  (results.map (fun r => formatCommandOutput r 300)).filter (fun s => s ≠ "")

/-- `CommitOutcome` (`gitCommit.ts`): the tagged union the orchestrator
returns. -/
inductive CommitOutcome where
  | ok (outputs : List String) (skipped : Bool) (skipReason : Option String)
  | fail (step : String) (result : CommandResult)
deriving Repr, DecidableEq

/-- The results the three git steps of the orchestrator would produce,
passed in explicitly (the embedding of the `gitClient` collaborator). -/
structure GitStepResults where
  addResult : CommandResult
  commitResult : CommandResult
  pushResult : CommandResult
deriving Repr, DecidableEq

/-- `commitAndPushAsync` (`gitCommit.ts`), with the git argument lists it
invokes logged in order: stage (scoped paths, or `-A` when no non-empty
scope was given), commit with the message, push; early exit on the first
non-zero step, with the no-op-commit classification at the commit step. -/
def commitAndPushAsync (git : GitStepResults) (commitMessage : String)
    (paths : Option (List String)) : CommitOutcome × List (List String) :=
  let addArgs :=
    match paths with
    | some ps => if 0 < ps.length then ps else ["-A"]
    | none => ["-A"]
  let addCall := "add" :: addArgs
  if git.addResult.exitCode ≠ 0 then
    (CommitOutcome.fail "stage" git.addResult, [addCall])
  else
    let commitCall := ["commit", "-m", commitMessage]
    if git.commitResult.exitCode ≠ 0 then
      if isNoChangesCommit git.commitResult then
        (CommitOutcome.ok (formatOutputs [git.addResult, git.commitResult])
          true (some "No changes to commit."), [addCall, commitCall])
      else
        (CommitOutcome.fail "commit" git.commitResult, [addCall, commitCall])
    else
      let pushCall := ["push", "origin"]
      if git.pushResult.exitCode ≠ 0 then
        (CommitOutcome.fail "push" git.pushResult, [addCall, commitCall, pushCall])
      else
        (CommitOutcome.ok
          (formatOutputs [git.addResult, git.commitResult, git.pushResult])
          false none, [addCall, commitCall, pushCall])

/-- `GitClient.createAndPushBranchAsync` (`gitClient.ts`), with the git
argument lists it invokes logged in order: checkout the new branch
(optionally from a start point); stop and return that result unchanged when
it exits non-zero; otherwise push with upstream tracking, returning the
push failure as-is or the concatenated outputs on success. -/
def createAndPushBranchAsync (createResult pushResult : CommandResult)
    (branch : String) (startPoint : Option String) :
    CommandResult × List (List String) :=
  let createArgs := ["checkout", "-b", branch] ++
    (match startPoint with
     | some sp => [sp]
     | none => [])
  if createResult.exitCode ≠ 0 then
    (createResult, [createArgs])
  else
    let pushArgs := ["push", "-u", "origin", branch]
    if pushResult.exitCode ≠ 0 then
      (pushResult, [createArgs, pushArgs])
    else
      ({ stdout := createResult.stdout ++ pushResult.stdout,
         stderr := createResult.stderr ++ pushResult.stderr,
         exitCode := 0 }, [createArgs, pushArgs])

/-- A tool response (`toolResponses.ts`): the text payload plus the error
flag (`errorResponse` sets it, `textResponse` does not). -/
structure ToolResponse where
  text : String
  isError : Bool
deriving Repr, DecidableEq

/-- `textResponse` (`toolResponses.ts`). -/
def textResponse (t : String) : ToolResponse := ⟨t, false⟩

/-- `errorResponse` (`toolResponses.ts`). -/
def errorResponse (t : String) : ToolResponse := ⟨t, true⟩

/-- The observable effects of one `apply_patch` invocation, in order:
scratch directory creation (`mkdtemp`), the patch file write, each git
subprocess (by argument list), and scratch directory removal (`rm` in the
`finally`). -/
inductive PatchEffect where
  | mkdtempEff
  | writeFileEff (path content : String)
  | gitEff (args : List String)
  | rmDirEff
deriving Repr, DecidableEq

/-- The environment one `apply_patch` invocation runs against: the scratch
directory name `mkdtemp` picks, the results of the check and apply git
invocations, and the orchestrator's step results. -/
structure PatchEnv where
  tempDir : String
  checkResult : CommandResult
  applyResult : CommandResult
  git : GitStepResults
deriving Repr, DecidableEq

/-- The `apply_patch` tool handler (`fileTools.ts`), returning the tool
response together with the ordered trace of filesystem and subprocess
effects.  Validation happens before any effect; afterwards the scratch
directory is created, the patch written, `git apply --check` run, then
either the dry-run report, or the real `git apply` followed by the
commit-and-push orchestrator; the `finally` removes the scratch directory
on every path. -/
def applyPatchHandler (env : PatchEnv) (workspaceDir patch : String)
    (dryRun reverse : Bool) (fuzz : Option Nat) (commitMessage : String) :
    ToolResponse × List PatchEffect :=
  let patchPaths := extractPatchPaths patch
  match validatePatchPaths workspaceDir patchPaths with
  | some validationError => (errorResponse validationError, [])
  | none =>
    let patchFilePath := env.tempDir ++ "/patch.diff"
    let patchArgs := buildPatchArgs reverse fuzz
    let checkArgs := ["apply", "--check"] ++ patchArgs ++ [patchFilePath]
    let checkEffs : List PatchEffect :=
      [PatchEffect.mkdtempEff, PatchEffect.writeFileEff patchFilePath patch,
       PatchEffect.gitEff checkArgs]
    if env.checkResult.exitCode ≠ 0 then
      (errorResponse ("Patch check failed (context not found or file missing).\n\n"
          ++ formatCommandFailure env.checkResult 300),
       checkEffs ++ [PatchEffect.rmDirEff])
    else if dryRun then
      (textResponse ("Patch check succeeded (dry run).\n\nFiles:\n"
          ++ joinWith "\n" patchPaths),
       checkEffs ++ [PatchEffect.rmDirEff])
    else
      let applyArgs := ["apply"] ++ patchArgs ++ [patchFilePath]
      let applyEffs := checkEffs ++ [PatchEffect.gitEff applyArgs]
      if env.applyResult.exitCode ≠ 0 then
        (errorResponse ("Patch apply failed (partial apply possible).\n\n"
            ++ formatCommandFailure env.applyResult 300),
         applyEffs ++ [PatchEffect.rmDirEff])
      else
        let commitRun := commitAndPushAsync env.git commitMessage (some patchPaths)
        let allEffs := applyEffs ++ commitRun.2.map PatchEffect.gitEff
          ++ [PatchEffect.rmDirEff]
        match commitRun.1 with
        | CommitOutcome.fail step result =>
          (errorResponse ("Error " ++ step ++ " patch changes.\n\n"
              ++ formatCommandFailure result 300), allEffs)
        | CommitOutcome.ok outputs skipped skipReason =>
          let output := formatCommandOutput env.applyResult 300
          let commitOutput :=
            if outputs ≠ [] then "\n\n" ++ joinWith "\n\n" outputs else ""
          let commitNote :=
            if skipped then "\n\n" ++ skipReason.getD "No changes to commit." else ""
          let filesBlock := "Patch applied successfully.\n\nFiles:\n"
            ++ joinWith "\n" patchPaths
          let message :=
            if output ≠ "" then
              filesBlock ++ "\n\n" ++ output ++ commitOutput ++ commitNote
            else filesBlock ++ commitOutput ++ commitNote
          (textResponse message, allEffs)

/-- Spec-side classification of effects that mutate the workspace or the
repository: a real `git apply` (no `--check`), a `git add`, `commit` or
`push`.  Scratch-directory effects and the apply-check do not touch the
workspace. -/
def effectMutatesWorkspace : PatchEffect → Bool
  | PatchEffect.gitEff args =>
    (args.head? = some "apply" && !args.contains "--check")
      || args.head? = some "add" || args.head? = some "commit"
      || args.head? = some "push"
  | _ => false

/-- The amended per-line rule of patch path extraction: the token is the
(possibly empty) maximal run of non-whitespace characters directly after
the four-character prefix; it is dropped when empty or exactly
`"/dev/null"`, and only then is one leading `a/`/`b/` stripped, dropping
the entry when the remainder is empty. -/
def amendedLineRule (line : String) : Option String :=
  if strStartsWith line "--- " || strStartsWith line "+++ " then
    let tok := firstWsToken (String.mk (line.toList.drop 4))
    if tok = "" || tok = "/dev/null" then none
    else
      let stripped := stripAbPrefix tok
      if stripped = "" then none else some stripped
  else none

/-- First-occurrence deduplicating accumulation. -/
def dedupKeepFirstAux : List String → List String → List String
  | acc, [] => acc
  | acc, x :: rest => dedupKeepFirstAux (addUniq acc x) rest

/-- Patch path extraction phrased per the amended claim: per-line
contributions collected in first-occurrence order without duplicates. -/
def amendedExtractPatchPaths (patch : String) : List String :=
  dedupKeepFirstAux [] ((splitPatchLines patch).filterMap amendedLineRule)

/-- Concrete step results for the no-op commit scenario: staging succeeds,
the commit exits 1 with the working-tree-clean message on stderr. -/
def noopGit : GitStepResults :=
  { addResult := { stdout := "", stderr := "", exitCode := 0 },
    commitResult :=
      { stdout := "", stderr := "nothing to commit, working tree clean",
        exitCode := 1 },
    pushResult := { stdout := "", stderr := "", exitCode := 0 } }

/-- Concrete failing branch-creation result. -/
def failedCreate : CommandResult :=
  { stdout := "", stderr := "fatal: a branch named dev already exists",
    exitCode := 128 }

/-- Concrete push result (never reached in the C6 scenario). -/
def unusedPush : CommandResult := { stdout := "", stderr := "", exitCode := 0 }

/-- A concrete environment for the `apply_patch` witnesses. -/
def sampleEnv : PatchEnv :=
  { tempDir := "/tmp/mcp-patch-abc123",
    checkResult := { stdout := "", stderr := "", exitCode := 0 },
    applyResult := { stdout := "", stderr := "", exitCode := 0 },
    git := noopGit }

/-- A concrete 301-line stream. -/
def lines301 : List String := (List.range 301).map (fun n => toString n)

/-! ## Helper lemmas -/

lemma strStartsWith_iff (s pre : String) :
    strStartsWith s pre = true ↔ ∃ rest : String, s = pre ++ rest := by
  unfold strStartsWith
  rw [List.isPrefixOf_iff_prefix]
  constructor
  · rintro ⟨t, ht⟩
    exact ⟨String.mk t, String.ext ht.symm⟩
  · rintro ⟨rest, hrest⟩
    exact ⟨rest.toList, by subst hrest; rfl⟩

lemma strStartsWith_self_sep (s : String) :
    strStartsWith s (s ++ "/") = false := by
  unfold strStartsWith
  rw [Bool.eq_false_iff]
  intro h
  rw [List.isPrefixOf_iff_prefix] at h
  have hle := h.length_le
  have heq : (s ++ "/").toList = s.toList ++ ['/'] := rfl
  rw [heq] at hle
  simp at hle

lemma normSteps_append_dot (xs acc : List String) :
    normSteps (xs ++ ["."]) acc = normSteps xs acc := by
  induction xs generalizing acc with
  | nil => simp [normSteps]
  | cons c rest ih =>
    simp only [List.cons_append, normSteps]
    split
    · exact ih acc
    · split
      · exact ih acc.tail
      · exact ih (c :: acc)

lemma nodeResolve_dot (w : String) : nodeResolve w "." = nodeResolve1 w := by
  unfold nodeResolve nodeResolve1
  have h1 : strStartsWith "." "/" = false := by decide
  rw [h1]
  simp only [Bool.false_eq_true, if_false]
  have h2 : splitSlash "." = ["."] := by decide
  rw [h2, normSteps_append_dot]

/-- Unfolding of `resolvePath` with its let bindings resolved. -/
lemma resolvePath_eq (w f : String) :
    resolvePath w f =
      if strStartsWith (nodeResolve w f) (nodeResolve1 w ++ "/") then
        Except.ok (nodeResolve w f)
      else Except.error "Invalid file name." := rfl

/-- C3, counterexample: the claim asserts a name resolving to the workspace
root itself is accepted, but `resolvePath` requires the resolved path to
start with the root followed by the separator, so `"."` (which resolves to
the root `/work` exactly) is rejected with the invalid-path error. -/
theorem resolvePath_rejects_root_cex :
    resolvePath "/work" "." = Except.error "Invalid file name." := by decide

/-- C3, amended: the resolver either returns the resolution of the name
against the workspace root or fails with the invalid-path error, and it
succeeds if and only if the resolved path lies strictly within the
resolved workspace root (root, separator, remainder); in particular a name
resolving to the root itself is always rejected. -/
theorem resolvePath_amended_containment :
    (∀ w f, resolvePath w f = Except.ok (nodeResolve w f) ∨
      resolvePath w f = Except.error "Invalid file name.") ∧
    (∀ w f, (∃ p, resolvePath w f = Except.ok p) ↔
      liesStrictlyWithin (nodeResolve1 w) (nodeResolve w f)) ∧
    (∀ w, resolvePath w "." = Except.error "Invalid file name.") := by
  refine ⟨?_, ?_, ?_⟩
  · intro w f
    rw [resolvePath_eq]
    split
    · exact Or.inl rfl
    · exact Or.inr rfl
  · intro w f
    rw [resolvePath_eq]
    constructor
    · rintro ⟨p, hp⟩
      by_cases h : strStartsWith (nodeResolve w f) (nodeResolve1 w ++ "/") = true
      · obtain ⟨rest, hrest⟩ := (strStartsWith_iff _ _).mp h
        exact ⟨rest, by rw [hrest, String.append_assoc]⟩
      · rw [Bool.not_eq_true] at h
        rw [h] at hp
        simp at hp
    · rintro ⟨rest, hrest⟩
      have h : strStartsWith (nodeResolve w f) (nodeResolve1 w ++ "/") = true := by
        rw [strStartsWith_iff]
        exact ⟨rest, by rw [hrest, String.append_assoc]⟩
      rw [h]
      exact ⟨nodeResolve w f, by simp⟩
  · intro w
    rw [resolvePath_eq, nodeResolve_dot, strStartsWith_self_sep]
    simp

/-- C7: from workspace root `/work`, resolving `../outside` fails with the
invalid-path error, and resolving `sub/../sub/file.txt` succeeds and yields
exactly `/work/sub/file.txt`. -/
theorem resolvePath_concrete_examples :
    resolvePath "/work" "../outside" = Except.error "Invalid file name." ∧
    resolvePath "/work" "sub/../sub/file.txt" = Except.ok "/work/sub/file.txt" := by
  constructor <;> decide

lemma dropWhile_isJsWs_of_forall (l : List Char) (h : ∀ c ∈ l, isJsWs c = false) :
    l.dropWhile isJsWs = l := by
  cases l with
  | nil => rfl
  | cons c t => simp [List.dropWhile_cons, h c (by simp)]

lemma jsTrim_firstWsToken (s : String) :
    jsTrim (firstWsToken s) = firstWsToken s := by
  unfold jsTrim firstWsToken
  have hall : ∀ c ∈ s.toList.takeWhile (fun c => !isJsWs c), isJsWs c = false := by
    intro c hc
    have := List.mem_takeWhile_imp hc
    simpa using this
  have h1 : (String.mk (s.toList.takeWhile (fun c => !isJsWs c))).toList
      = s.toList.takeWhile (fun c => !isJsWs c) := rfl
  rw [h1, dropWhile_isJsWs_of_forall _ hall,
    dropWhile_isJsWs_of_forall _ (by intro c hc; exact hall c (List.mem_reverse.mp hc)),
    List.reverse_reverse]

lemma patchLine_eq_amended (line : String) :
    patchLineContribution line = amendedLineRule line := by
  unfold patchLineContribution amendedLineRule normalizePatchPath
  by_cases hpre : (strStartsWith line "--- " || strStartsWith line "+++ ") = true
  · simp only [hpre, if_true, jsTrim_firstWsToken]
    split_ifs <;> simp_all
  · rw [Bool.not_eq_true] at hpre
    simp [hpre]

lemma extractLoop_eq_dedup (lines : List String) (acc : List String) :
    extractPatchPathsLoop lines acc =
      dedupKeepFirstAux acc (lines.filterMap amendedLineRule) := by
  induction lines generalizing acc with
  | nil => rfl
  | cons line rest ih =>
    have hA : amendedLineRule line = patchLineContribution line :=
      (patchLine_eq_amended line).symm
    cases h : patchLineContribution line with
    | some p =>
      rw [h] at hA
      simp only [extractPatchPathsLoop, h, List.filterMap_cons, hA, dedupKeepFirstAux]
      exact ih (addUniq acc p)
    | none =>
      rw [h] at hA
      simp only [extractPatchPathsLoop, h, List.filterMap_cons, hA]
      exact ih acc

/-- C4, counterexample: on the line `--- a//dev/null` the code first tests
the raw token against `"/dev/null"` (it is `a//dev/null`, so it passes) and
only then strips `a/`, accumulating the path `/dev/null`; the claim's rule
(strip first, then drop `/dev/null`) would contribute nothing. -/
theorem extractPatchPaths_devnull_order_cex :
    extractPatchPaths "--- a//dev/null" = ["/dev/null"] ∧
    claimExtractPatchPaths "--- a//dev/null" = [] := by
  constructor <;> decide

/-- C4, amended: extraction examines exactly the `--- `/`+++ ` lines; the
token is the maximal non-whitespace run directly after the prefix; it is
dropped when empty or equal to `/dev/null` BEFORE prefix stripping, then
one leading `a/` or `b/` is stripped and an empty remainder dropped; the
survivors form a duplicate-free first-occurrence-ordered set.  The claim's
examples hold: `--- a/foo.txt\n+++ b/foo.txt\n@@...` yields `foo.txt` and a
`+++ /dev/null` line contributes no path. -/
theorem extractPatchPaths_amended :
    (∀ patch, extractPatchPaths patch = amendedExtractPatchPaths patch) ∧
    extractPatchPaths "--- a/foo.txt\n+++ b/foo.txt\n@@ -1 +1 @@" = ["foo.txt"] ∧
    amendedLineRule "+++ /dev/null" = none := by
  refine ⟨?_, by decide, by decide⟩
  intro patch
  exact extractLoop_eq_dedup (splitPatchLines patch) []

/-- C10: calling the commit-and-push orchestrator with an explicitly empty
path scope behaves exactly like the unscoped call — the empty list falls
through the `paths && paths.length > 0` guard, so staging uses `git add -A`
(stage everything) and the whole outcome and call trace coincide with the
unscoped invocation. -/
theorem commitAndPush_empty_scope_stages_all :
    (∀ git msg, commitAndPushAsync git msg (some []) =
      commitAndPushAsync git msg none) ∧
    (∀ git msg, (commitAndPushAsync git msg (some [])).2.head? =
      some ["add", "-A"]) := by
  constructor
  · intro git msg
    rfl
  · intro git msg
    unfold commitAndPushAsync
    split_ifs <;> rfl

/-- C2: when staging succeeds and the commit step exits non-zero with the
case-insensitive no-op signature in its combined output, the orchestrator
returns success with `skipped = true` (the `wasNoOp` flag), the
human-readable no-op reason, and the formatted outputs of exactly the
stage and commit steps; the logged call trace contains no push
invocation. -/
theorem commitAndPush_noop_commit (git : GitStepResults) (msg : String)
    (paths : Option (List String))
    (hAdd : git.addResult.exitCode = 0)
    (hCommit : git.commitResult.exitCode ≠ 0)
    (hSig : isNoChangesCommit git.commitResult = true) :
    (commitAndPushAsync git msg paths).1 =
      CommitOutcome.ok (formatOutputs [git.addResult, git.commitResult])
        true (some "No changes to commit.") ∧
    ∀ call ∈ (commitAndPushAsync git msg paths).2,
      call.head? ≠ some "push" := by
  unfold commitAndPushAsync
  simp only [hAdd, hSig]
  rw [if_neg (by simp), if_pos hCommit]
  simp only [if_true]
  refine ⟨by simp, ?_⟩
  intro call hcall
  simp only [List.mem_cons, List.not_mem_nil, or_false] at hcall
  rcases hcall with h | h <;> subst h <;> simp

/-- Witness for C2 at a concrete no-op commit environment. -/
theorem commitAndPush_noop_commit_witness :
    (commitAndPushAsync noopGit "update" none).1 =
      CommitOutcome.ok (formatOutputs [noopGit.addResult, noopGit.commitResult])
        true (some "No changes to commit.") ∧
    ∀ call ∈ (commitAndPushAsync noopGit "update" none).2,
      call.head? ≠ some "push" :=
  commitAndPush_noop_commit noopGit "update" none (by decide) (by decide)
    (by decide)

/-- C6: when the branch-creation step of the compound create-and-push
operation exits non-zero, the operation returns that step's result
unchanged, the call trace contains only the checkout invocation, and in
particular no push is run. -/
theorem createAndPushBranch_create_failure (cr pr : CommandResult)
    (branch : String) (sp : Option String) (h : cr.exitCode ≠ 0) :
    createAndPushBranchAsync cr pr branch sp =
      (cr, [["checkout", "-b", branch] ++
        (match sp with
         | some s => [s]
         | none => [])]) ∧
    ∀ call ∈ (createAndPushBranchAsync cr pr branch sp).2,
      call.head? ≠ some "push" := by
  unfold createAndPushBranchAsync
  rw [if_pos h]
  refine ⟨rfl, ?_⟩
  intro call hcall
  simp only [List.mem_singleton] at hcall
  subst hcall
  simp

/-- Witness for C6 at a concrete failing branch creation. -/
theorem createAndPushBranch_create_failure_witness :
    createAndPushBranchAsync failedCreate unusedPush "dev" none =
      (failedCreate, [["checkout", "-b", "dev"] ++
        (match (none : Option String) with
         | some s => [s]
         | none => [])]) ∧
    ∀ call ∈ (createAndPushBranchAsync failedCreate unusedPush "dev" none).2,
      call.head? ≠ some "push" :=
  createAndPushBranch_create_failure failedCreate unusedPush "dev" none
    (by decide)

lemma findFirstInvalid_of_mem (w : String) (paths : List String) (p : String)
    (hp : p ∈ paths) (he : ∃ e, resolvePath w p = Except.error e) :
    ∃ q ∈ paths, (∃ e, resolvePath w q = Except.error e) ∧
      findFirstInvalidPath w paths = some q := by
  induction paths with
  | nil => cases hp
  | cons a rest ih =>
    cases hr : resolvePath w a with
    | error e =>
      exact ⟨a, List.mem_cons_self a rest, ⟨e, hr⟩, by
        simp only [findFirstInvalidPath, hr]⟩
    | ok v =>
      rcases List.mem_cons.mp hp with hpa | hprest
      · subst hpa
        obtain ⟨e, he'⟩ := he
        rw [hr] at he'
        cases he'
      · obtain ⟨q, hq, hqe, hqf⟩ := ih hprest
        exact ⟨q, List.mem_cons_of_mem a hq, hqe, by
          simp only [findFirstInvalidPath, hr, hqf]⟩

lemma applyPatchHandler_validation_error (env : PatchEnv) (w patch : String)
    (dryRun reverse : Bool) (fuzz : Option Nat) (msg err : String)
    (hv : validatePatchPaths w (extractPatchPaths patch) = some err) :
    applyPatchHandler env w patch dryRun reverse fuzz msg =
      (errorResponse err, []) := by
  simp only [applyPatchHandler, hv]

/-- C1: when the extracted path set of a patch is empty, or some extracted
path fails workspace-root containment, `apply_patch` fails immediately with
a descriptive error — naming an offending path in the containment case —
and its effect trace is empty: no scratch directory, no patch file write,
and no git invocation of any kind. -/
theorem applyPatch_validation_failure (env : PatchEnv)
    (w patch : String) (dryRun reverse : Bool) (fuzz : Option Nat)
    (msg : String)
    (h : extractPatchPaths patch = [] ∨
      ∃ p ∈ extractPatchPaths patch, ∃ e, resolvePath w p = Except.error e) :
    ∃ err, applyPatchHandler env w patch dryRun reverse fuzz msg =
        (errorResponse err, []) ∧
      (extractPatchPaths patch = [] →
        err = "Patch does not include any file paths.") ∧
      (extractPatchPaths patch ≠ [] →
        ∃ q ∈ extractPatchPaths patch,
          (∃ e, resolvePath w q = Except.error e) ∧
            err = invalidPatchPathMsg q) := by
  rcases h with hempty | ⟨p, hp, he⟩
  · refine ⟨"Patch does not include any file paths.", ?_, fun _ => rfl,
      fun hne => absurd hempty hne⟩
    exact applyPatchHandler_validation_error env w patch dryRun reverse fuzz
      msg _ (by unfold validatePatchPaths; rw [if_pos hempty])
  · have hne : extractPatchPaths patch ≠ [] := by
      intro hc
      rw [hc] at hp
      cases hp
    obtain ⟨q, hq, hqe, hqf⟩ :=
      findFirstInvalid_of_mem w (extractPatchPaths patch) p hp he
    refine ⟨invalidPatchPathMsg q, ?_, fun hc => absurd hc hne,
      fun _ => ⟨q, hq, hqe, rfl⟩⟩
    exact applyPatchHandler_validation_error env w patch dryRun reverse fuzz
      msg _ (by unfold validatePatchPaths; rw [if_neg hne, hqf])

/-- Witness for C1: a patch whose only extracted path escapes the
workspace root is rejected with the path named and an empty effect
trace. -/
theorem applyPatch_validation_failure_witness :
    ∃ err, applyPatchHandler sampleEnv "/work"
        "--- a/../evil\n+++ b/../evil\n@@ -1 +1 @@" false false none "m" =
        (errorResponse err, []) ∧
      (extractPatchPaths "--- a/../evil\n+++ b/../evil\n@@ -1 +1 @@" = [] →
        err = "Patch does not include any file paths.") ∧
      (extractPatchPaths "--- a/../evil\n+++ b/../evil\n@@ -1 +1 @@" ≠ [] →
        ∃ q ∈ extractPatchPaths "--- a/../evil\n+++ b/../evil\n@@ -1 +1 @@",
          (∃ e, resolvePath "/work" q = Except.error e) ∧
            err = invalidPatchPathMsg q) :=
  applyPatch_validation_failure sampleEnv "/work"
    "--- a/../evil\n+++ b/../evil\n@@ -1 +1 @@" false false none "m"
    (Or.inr ⟨"../evil", by decide, "Invalid file name.", by decide⟩)

/-- C5: a dry-run `apply_patch` whose validation and apply-check succeed
stops after the check and reports success listing the affected paths; its
whole effect trace is scratch-dir creation, the patch-file write, the
`git apply --check` invocation and scratch-dir removal — no real apply, no
orchestrator step, and no workspace-mutating effect at all. -/
theorem applyPatch_dry_run (env : PatchEnv) (w patch : String)
    (reverse : Bool) (fuzz : Option Nat) (msg : String)
    (hval : validatePatchPaths w (extractPatchPaths patch) = none)
    (hcheck : env.checkResult.exitCode = 0) :
    applyPatchHandler env w patch true reverse fuzz msg =
      (textResponse ("Patch check succeeded (dry run).\n\nFiles:\n"
          ++ joinWith "\n" (extractPatchPaths patch)),
       [PatchEffect.mkdtempEff,
        PatchEffect.writeFileEff (env.tempDir ++ "/patch.diff") patch,
        PatchEffect.gitEff (["apply", "--check"] ++ buildPatchArgs reverse fuzz
          ++ [env.tempDir ++ "/patch.diff"]),
        PatchEffect.rmDirEff]) ∧
    ∀ e ∈ (applyPatchHandler env w patch true reverse fuzz msg).2,
      effectMutatesWorkspace e = false := by
  have h1 : applyPatchHandler env w patch true reverse fuzz msg =
      (textResponse ("Patch check succeeded (dry run).\n\nFiles:\n"
          ++ joinWith "\n" (extractPatchPaths patch)),
       [PatchEffect.mkdtempEff,
        PatchEffect.writeFileEff (env.tempDir ++ "/patch.diff") patch,
        PatchEffect.gitEff (["apply", "--check"] ++ buildPatchArgs reverse fuzz
          ++ [env.tempDir ++ "/patch.diff"]),
        PatchEffect.rmDirEff]) := by
    simp [applyPatchHandler, hval, hcheck]
  refine ⟨h1, ?_⟩
  rw [h1]
  intro e he
  simp only [List.mem_cons, List.not_mem_nil, or_false] at he
  rcases he with h | h | h | h <;> subst h <;>
    simp [effectMutatesWorkspace]

/-- Witness for C5: a concrete dry run over a one-file patch in `/work`. -/
theorem applyPatch_dry_run_witness :
    applyPatchHandler sampleEnv "/work" "--- a/foo.txt\n+++ b/foo.txt\n@@ -1 +1 @@"
        true false none "m" =
      (textResponse ("Patch check succeeded (dry run).\n\nFiles:\n"
          ++ joinWith "\n"
            (extractPatchPaths "--- a/foo.txt\n+++ b/foo.txt\n@@ -1 +1 @@")),
       [PatchEffect.mkdtempEff,
        PatchEffect.writeFileEff (sampleEnv.tempDir ++ "/patch.diff")
          "--- a/foo.txt\n+++ b/foo.txt\n@@ -1 +1 @@",
        PatchEffect.gitEff (["apply", "--check"] ++ buildPatchArgs false none
          ++ [sampleEnv.tempDir ++ "/patch.diff"]),
        PatchEffect.rmDirEff]) ∧
    ∀ e ∈ (applyPatchHandler sampleEnv "/work"
        "--- a/foo.txt\n+++ b/foo.txt\n@@ -1 +1 @@" true false none "m").2,
      effectMutatesWorkspace e = false :=
  applyPatch_dry_run sampleEnv "/work" "--- a/foo.txt\n+++ b/foo.txt\n@@ -1 +1 @@"
    false none "m" (by decide) (by decide)

/-- C8: every `apply_patch` invocation that passes validation (and hence
creates the scratch directory as its first effect) removes the scratch
directory as its last effect, on every exit path: check failure, dry-run
success, apply failure, commit-step failure and full success alike. -/
theorem applyPatch_scratch_cleanup (env : PatchEnv) (w patch : String)
    (dryRun reverse : Bool) (fuzz : Option Nat) (msg : String)
    (hval : validatePatchPaths w (extractPatchPaths patch) = none) :
    (applyPatchHandler env w patch dryRun reverse fuzz msg).2.head? =
      some PatchEffect.mkdtempEff ∧
    (applyPatchHandler env w patch dryRun reverse fuzz msg).2.getLast? =
      some PatchEffect.rmDirEff := by
  simp only [applyPatchHandler, hval]
  by_cases h1 : env.checkResult.exitCode ≠ 0
  · rw [if_pos h1]
    exact ⟨by simp, by rw [List.getLast?_concat]⟩
  rw [if_neg h1]
  by_cases h2 : dryRun = true
  · rw [if_pos h2]
    exact ⟨by simp, by rw [List.getLast?_concat]⟩
  rw [if_neg h2]
  by_cases h3 : env.applyResult.exitCode ≠ 0
  · rw [if_pos h3]
    exact ⟨by simp, by rw [List.getLast?_concat]⟩
  rw [if_neg h3]
  cases hc : (commitAndPushAsync env.git msg (some (extractPatchPaths patch))).1 with
  | ok outputs skipped skipReason =>
    simp only [hc]
    exact ⟨by simp, by rw [List.getLast?_concat]⟩
  | fail step result =>
    simp only [hc]
    exact ⟨by simp, by rw [List.getLast?_concat]⟩

/-- Witness for C8: the concrete dry-run invocation creates the scratch
directory first and removes it last. -/
theorem applyPatch_scratch_cleanup_witness :
    (applyPatchHandler sampleEnv "/work"
        "--- a/foo.txt\n+++ b/foo.txt\n@@ -1 +1 @@" true false none "m").2.head? =
      some PatchEffect.mkdtempEff ∧
    (applyPatchHandler sampleEnv "/work"
        "--- a/foo.txt\n+++ b/foo.txt\n@@ -1 +1 @@" true false none "m").2.getLast? =
      some PatchEffect.rmDirEff :=
  applyPatch_scratch_cleanup sampleEnv "/work"
    "--- a/foo.txt\n+++ b/foo.txt\n@@ -1 +1 @@" true false none "m" (by decide)

/-- C9: whenever a stream's line count exceeds `maxLines`, its formatted
block is a marker stating how many leading lines were trimmed followed by
exactly the last `maxLines` lines in original order (a suffix of the
stream of length `maxLines`). -/
theorem formatStreamBlock_truncates (lines : List String) (maxLines : Nat)
    (h : maxLines < lines.length) :
    ∃ rest, formatStreamBlock maxLines lines =
        ("trimmed " ++ toString (lines.length - maxLines) ++ " lines") :: rest ∧
      rest.length = maxLines ∧ rest <:+ lines := by
  refine ⟨lines.drop (lines.length - maxLines), ?_, ?_, ?_⟩
  · unfold formatStreamBlock
    rw [if_pos h]
  · rw [List.length_drop]
    omega
  · exact List.drop_suffix _ _

/-- Witness for C9: a 301-line stream at the default limit of 300 yields a
block stating that 1 line was trimmed, followed by exactly the last 300
lines. -/
theorem formatStreamBlock_truncates_witness :
    ∃ rest, formatStreamBlock 300 lines301 =
        ("trimmed 1 lines") :: rest ∧
      rest.length = 300 ∧ rest <:+ lines301 := by
  have hlen : lines301.length = 301 := by
    unfold lines301
    rw [List.length_map, List.length_range]
  obtain ⟨rest, h1, h2, h3⟩ := formatStreamBlock_truncates lines301 300
    (by rw [hlen]; omega)
  have hmark : "trimmed " ++ toString (lines301.length - 300) ++ " lines"
      = "trimmed 1 lines" := by
    rw [hlen]
    decide
  rw [hmark] at h1
  exact ⟨rest, h1, h2, h3⟩
